import Mathlib

/-!
Verification of the chess rules engine in `chessmaniapygame.py`.

The board is an 8 by 8 grid of optional pieces; the source represents it as
a list of row lists and accesses cells as `self.board[row][col]`.  The main
embedding models the grid as a total function `Int → Int → Option Piece`;
every access the engine performs on its own behalf goes through
`get_piece`, which validity-checks the coordinates first, exactly as the
source does.  Booleans returned by the Python predicates stay `Bool` here.

For the frame property of `get_legal_moves` (the queried board is left
untouched), the row lists — the only mutable state reachable both from the
queried board and from the temporary boards built inside `get_legal_moves`,
since scalar attributes rebind per object and cannot alias — are modelled
as heap-allocated objects: a `Heap` is the arena of allocated rows and a
`BoardRef` holds references into it.  The move generators and check
predicates only read the board, so the heap model reuses the pure
definitions on the read-projection `projBoard`.
-/

set_option maxHeartbeats 1000000

inductive PieceType where
  | PAWN | ROOK | KNIGHT | BISHOP | QUEEN | KING
deriving DecidableEq, Repr

inductive Color where
  | WHITE | BLACK
deriving DecidableEq, Repr

structure Piece where
  color : Color
  type : PieceType
deriving DecidableEq, Repr

/-- The 8×8 grid: a cell for every (row, col), `none` when empty. -/
def Grid : Type := Int → Int → Option Piece

/-- A `Board` object: grid, en-passant target, current player and move
history, mirroring the attributes set in `Board.reset`. -/
structure Board where
  board : Grid
  en_passant_target : Option (Int × Int)
  current_player : Color
  move_history : List ((Int × Int) × (Int × Int))

/-- Source `range(ROWS)` / `range(COLS)` with `ROWS = COLS = 8`, as `Int` indices. -/
def range8 : List Int := [0, 1, 2, 3, 4, 5, 6, 7]

/-- Source `Board.is_valid_position`: `0 <= row < ROWS and 0 <= col < COLS`. -/
def is_valid_position (row col : Int) : Bool :=
  decide (0 ≤ row ∧ row < 8 ∧ 0 ≤ col ∧ col < 8)

/-- Source `Board.get_piece`: the cell when the coordinates are valid, else `None`. -/
def Board.get_piece (b : Board) (row col : Int) : Option Piece :=
  if is_valid_position row col then b.board row col else none

/-- Source `Board.is_enemy`: both pieces present and of different colors. -/
def is_enemy (piece1 piece2 : Option Piece) : Bool :=
  match piece1, piece2 with
  | some p1, some p2 => decide (p1.color ≠ p2.color)
  | _, _ => false

/-- Assignment `self.board[row][col] = v` on the grid. -/
def setCell (g : Grid) (row col : Int) (v : Option Piece) : Grid :=
  fun r c => if r = row ∧ c = col then v else g r c

/-- Source `Board.get_pawn_moves`.  Forward pushes test emptiness through
`get_piece` (which also returns `None` off-board, as in the source); diagonal
captures are validity-checked and fire on an enemy piece or on the current
en-passant target. -/
def Board.get_pawn_moves (b : Board) (row col : Int) : List (Int × Int) :=
  match b.get_piece row col with
  | none => []
  | some piece =>
    let direction : Int := if piece.color = Color.WHITE then -1 else 1
    let start_row : Int := if piece.color = Color.WHITE then 6 else 1
    let forward : List (Int × Int) :=
      if b.get_piece (row + direction) col = none then
        (row + direction, col) ::
          (if row = start_row ∧ b.get_piece (row + 2 * direction) col = none then
            [(row + 2 * direction, col)]
          else [])
      else []
    let captures : List (Int × Int) :=
      (([-1, 1] : List Int).map (fun dcol => (row + direction, col + dcol))).filter
        (fun q =>
          is_valid_position q.1 q.2 ∧
            (is_enemy (some piece) (b.get_piece q.1 q.2) = true ∨
              b.en_passant_target = some q))
    forward ++ captures

/-- One sliding direction of `get_rook_moves` / `get_bishop_moves`: the inner
`for i in range(1, 8)` loop, with `fuel` iterations left and `i` the current
multiplier. -/
def slideFrom (b : Board) (piece : Piece) (row col dr dc : Int) :
    Nat → Int → List (Int × Int)
  | 0, _ => []
  | fuel + 1, i =>
    let q : Int × Int := (row + i * dr, col + i * dc)
    if is_valid_position q.1 q.2 then
      match b.get_piece q.1 q.2 with
      | none => q :: slideFrom b piece row col dr dc fuel (i + 1)
      | some target => if is_enemy (some piece) (some target) then [q] else []
    else []

/-- A full direction scan: `for i in range(1, 8)`. -/
def slideDir (b : Board) (piece : Piece) (row col dr dc : Int) : List (Int × Int) :=
  slideFrom b piece row col dr dc 7 1

/-- The four orthogonal directions of `get_rook_moves`. -/
def rookDirs : List (Int × Int) := [(-1, 0), (1, 0), (0, -1), (0, 1)]

/-- The four diagonal directions of `get_bishop_moves`. -/
def bishopDirs : List (Int × Int) := [(-1, -1), (-1, 1), (1, -1), (1, 1)]

/-- Source `Board.get_rook_moves`. -/
def Board.get_rook_moves (b : Board) (row col : Int) : List (Int × Int) :=
  match b.get_piece row col with
  | none => []
  | some piece => rookDirs.flatMap (fun d => slideDir b piece row col d.1 d.2)

/-- Source `Board.get_bishop_moves`. -/
def Board.get_bishop_moves (b : Board) (row col : Int) : List (Int × Int) :=
  match b.get_piece row col with
  | none => []
  | some piece => bishopDirs.flatMap (fun d => slideDir b piece row col d.1 d.2)

/-- Source `Board.get_queen_moves`: rook moves followed by bishop moves. -/
def Board.get_queen_moves (b : Board) (row col : Int) : List (Int × Int) :=
  b.get_rook_moves row col ++ b.get_bishop_moves row col

/-- The eight knight offsets. -/
def knightOffsets : List (Int × Int) :=
  [(-2, -1), (-2, 1), (-1, -2), (-1, 2), (1, -2), (1, 2), (2, -1), (2, 1)]

/-- The eight king offsets. -/
def kingOffsets : List (Int × Int) :=
  [(-1, -1), (-1, 0), (-1, 1), (0, -1), (0, 1), (1, -1), (1, 0), (1, 1)]

/-- Source `Board.get_knight_moves`. -/
def Board.get_knight_moves (b : Board) (row col : Int) : List (Int × Int) :=
  match b.get_piece row col with
  | none => []
  | some piece =>
    (knightOffsets.map (fun d => (row + d.1, col + d.2))).filter
      (fun q =>
        is_valid_position q.1 q.2 ∧
          (b.get_piece q.1 q.2 = none ∨
            is_enemy (some piece) (b.get_piece q.1 q.2) = true))

/-- Source `Board.get_king_moves`. -/
def Board.get_king_moves (b : Board) (row col : Int) : List (Int × Int) :=
  match b.get_piece row col with
  | none => []
  | some piece =>
    (kingOffsets.map (fun d => (row + d.1, col + d.2))).filter
      (fun q =>
        is_valid_position q.1 q.2 ∧
          (b.get_piece q.1 q.2 = none ∨
            is_enemy (some piece) (b.get_piece q.1 q.2) = true))

/-- Source `Piece.get_legal_moves`: dispatch on the piece kind to the board's
per-kind pseudo-legal generator. -/
def Piece.get_legal_moves (p : Piece) (b : Board) (row col : Int) :
    List (Int × Int) :=
  match p.type with
  | PieceType.PAWN => b.get_pawn_moves row col
  | PieceType.ROOK => b.get_rook_moves row col
  | PieceType.KNIGHT => b.get_knight_moves row col
  | PieceType.BISHOP => b.get_bishop_moves row col
  | PieceType.QUEEN => b.get_queen_moves row col
  | PieceType.KING => b.get_king_moves row col

/-- The body of `Board.make_move` once `piece = self.board[start_row][start_col]`
has been fetched and found non-`None`: the en-passant removal, the two cell
assignments, the promotion, the en-passant-target update
(`end_row + (start_row - end_row) // 2` uses Python floor division, `Int.fdiv`),
the player switch and the history append, in source order. -/
def Board.make_move_aux (piece : Piece) (b : Board)
    (s e : Int × Int) : Board :=
  let g1 : Grid :=
    if piece.type = PieceType.PAWN ∧ b.en_passant_target = some e then
      setCell b.board s.1 e.2 none
    else b.board
  let g2 : Grid := setCell g1 e.1 e.2 (some piece)
  let g3 : Grid := setCell g2 s.1 s.2 none
  let g4 : Grid :=
    if piece.type = PieceType.PAWN ∧ (e.1 = 0 ∨ e.1 = 7) then
      setCell g3 e.1 e.2 (some ⟨piece.color, PieceType.QUEEN⟩)
    else g3
  let ep : Option (Int × Int) :=
    if piece.type = PieceType.PAWN ∧ (s.1 - e.1).natAbs = 2 then
      some (e.1 + Int.fdiv (s.1 - e.1) 2, e.2)
    else none
  { board := g4
    en_passant_target := ep
    current_player :=
      if b.current_player = Color.WHITE then Color.BLACK else Color.WHITE
    move_history := b.move_history ++ [(s, e)] }

/-- Source `Board.make_move`.  The source fetches `piece = self.board[start_row][start_col]`
and immediately reads `piece.type`; when the origin is empty this raises an
`AttributeError` before any state has been modified, so the error value
carries the board exactly as it was at the raise point. -/
def Board.make_move (b : Board) (s e : Int × Int) : Except Board Board :=
  match b.board s.1 s.2 with
  | none => Except.error b
  | some piece => Except.ok (Board.make_move_aux piece b s e)

/-- Source `Board.is_square_attacked`: some piece of `attacking_color` has
`(row, col)` among its pseudo-legal moves. -/
def Board.is_square_attacked (b : Board) (row col : Int)
    (attacking_color : Color) : Bool :=
  range8.any (fun r =>
    range8.any (fun c =>
      match b.get_piece r c with
      | some piece =>
        decide (piece.color = attacking_color) &&
          decide ((row, col) ∈ piece.get_legal_moves b r c)
      | none => false))

/-- Source `Board.find_king`: first king of `color` in row-major scan order. -/
def Board.find_king (b : Board) (color : Color) : Option (Int × Int) :=
  (range8.flatMap (fun r => range8.map (fun c => (r, c)))).find?
    (fun q =>
      match b.get_piece q.1 q.2 with
      | some piece => decide (piece.color = color ∧ piece.type = PieceType.KING)
      | none => false)

/-- Source `Board.is_in_check`. -/
def Board.is_in_check (b : Board) (color : Color) : Bool :=
  match b.find_king color with
  | none => false
  | some king_pos =>
    b.is_square_attacked king_pos.1 king_pos.2
      (if color = Color.WHITE then Color.BLACK else Color.WHITE)

/-- Source `Board.get_legal_moves`: pseudo-legal moves of the piece at the square,
filtered by simulation.  `Board()` resets the scratch board (en-passant
target `None`, player White, empty history, a fresh initial grid) and the
very next line overwrites its grid with a copy of `self.board`; the scratch
board used for the simulation therefore carries this position's grid but a
cleared en-passant target.  `temp_board.make_move` refetches the mover from
the copied grid, which holds the same piece found at the queried square. -/
def Board.get_legal_moves (b : Board) (row col : Int) : List (Int × Int) :=
  match b.get_piece row col with
  | none => []
  | some piece =>
    (piece.get_legal_moves b row col).filter (fun m =>
      let temp_board : Board :=
        { board := b.board
          en_passant_target := none
          current_player := Color.WHITE
          move_history := [] }
      !(Board.is_in_check (Board.make_move_aux piece temp_board (row, col) m)
          piece.color))

/-- Source `Board.is_checkmate`. -/
def Board.is_checkmate (b : Board) (color : Color) : Bool :=
  b.is_in_check color &&
    range8.all (fun row =>
      range8.all (fun col =>
        match b.get_piece row col with
        | some piece =>
          if piece.color = color then (b.get_legal_moves row col).isEmpty
          else true
        | none => true))

/-- Source `Board.is_stalemate`. -/
def Board.is_stalemate (b : Board) (color : Color) : Bool :=
  !(b.is_in_check color) &&
    range8.all (fun row =>
      range8.all (fun col =>
        match b.get_piece row col with
        | some piece =>
          if piece.color = color then (b.get_legal_moves row col).isEmpty
          else true
        | none => true))

/-- Source `Board.set_initial_position` plus the surrounding `reset`: the standard
starting board. -/
def pieceOrder : List PieceType :=
  [PieceType.ROOK, PieceType.KNIGHT, PieceType.BISHOP, PieceType.QUEEN,
   PieceType.KING, PieceType.BISHOP, PieceType.KNIGHT, PieceType.ROOK]

/-- The grid produced by `set_initial_position`. -/
def initialGrid : Grid := fun r c =>
  if 0 ≤ c ∧ c < 8 then
    if r = 0 then (pieceOrder.get? c.toNat).map (fun t => ⟨Color.BLACK, t⟩)
    else if r = 1 then some ⟨Color.BLACK, PieceType.PAWN⟩
    else if r = 6 then some ⟨Color.WHITE, PieceType.PAWN⟩
    else if r = 7 then (pieceOrder.get? c.toNat).map (fun t => ⟨Color.WHITE, t⟩)
    else none
  else none

/-- Source `Board.reset`: the freshly constructed game board. -/
def initialBoard : Board :=
  { board := initialGrid
    en_passant_target := none
    current_player := Color.WHITE
    move_history := [] }

/-- Place a piece on a grid (board construction for test positions). -/
def putP (g : Grid) (r c : Int) (p : Piece) : Grid :=
  fun r' c' => if r' = r ∧ c' = c then some p else g r' c'

/-- The empty grid. -/
def emptyG : Grid := fun _ _ => none

/-- Black rook a-file, Black pawn d-file and White pawn e-file on row 3,
White king h-file on row 3; Black has just double-stepped the d-pawn, so the
en-passant target is (2, 3). -/
def gEpPin : Grid :=
  putP (putP (putP (putP emptyG 3 0 ⟨Color.BLACK, PieceType.ROOK⟩)
    3 3 ⟨Color.BLACK, PieceType.PAWN⟩) 3 4 ⟨Color.WHITE, PieceType.PAWN⟩)
    3 7 ⟨Color.WHITE, PieceType.KING⟩

/-- The en-passant pin position. -/
def bEpPin : Board :=
  { board := gEpPin
    en_passant_target := some (2, 3)
    current_player := Color.WHITE
    move_history := [] }

/-- A lone Black pawn on (1, 0). -/
def bBlackPawn : Board :=
  { board := putP emptyG 1 0 ⟨Color.BLACK, PieceType.PAWN⟩
    en_passant_target := none
    current_player := Color.BLACK
    move_history := [] }

/-- A lone White pawn on (1, 3). -/
def bWhitePawn : Board :=
  { board := putP emptyG 1 3 ⟨Color.WHITE, PieceType.PAWN⟩
    en_passant_target := none
    current_player := Color.WHITE
    move_history := [] }

/-- White has just double-stepped a pawn to (4, 3) (en-passant target (5, 3));
a Black pawn stands beside it on (4, 4). -/
def bEpBlack : Board :=
  { board := putP (putP emptyG 4 3 ⟨Color.WHITE, PieceType.PAWN⟩)
      4 4 ⟨Color.BLACK, PieceType.PAWN⟩
    en_passant_target := some (5, 3)
    current_player := Color.BLACK
    move_history := [] }

/-- The empty board. -/
def bEmpty : Board :=
  { board := emptyG
    en_passant_target := none
    current_player := Color.WHITE
    move_history := [] }

/-- The direction set each sliding piece kind scans. -/
def slidingDirs : PieceType → List (Int × Int)
  | PieceType.ROOK => rookDirs
  | PieceType.BISHOP => bishopDirs
  | PieceType.QUEEN => rookDirs ++ bishopDirs
  | _ => []

/-- A lone White rook on (3, 3) with a Black pawn on (3, 5). -/
def bRookScan : Board :=
  { board := putP (putP emptyG 3 3 ⟨Color.WHITE, PieceType.ROOK⟩)
      3 5 ⟨Color.BLACK, PieceType.PAWN⟩
    en_passant_target := none
    current_player := Color.WHITE
    move_history := [] }

/-- A row object, the mutable aliased entity of the implementation. -/
abbrev Row : Type := Int → Option Piece

/-- The arena of allocated row objects; list indices are object ids. -/
abbrev Heap : Type := List Row

/-- A board object whose grid is a vector of row references. -/
structure BoardRef where
  rowIds : List Nat
  en_passant_target : Option (Int × Int)
  current_player : Color
  move_history : List ((Int × Int) × (Int × Int))

/-- Read `self.board[r][c]` through the heap. -/
def readCell (h : Heap) (br : BoardRef) (r c : Int) : Option Piece :=
  match br.rowIds.get? r.toNat with
  | some id =>
    match h.get? id with
    | some rowObj => rowObj c
    | none => none
  | none => none

/-- Write `self.board[r][c] = v` through the heap: mutate the row object
referenced by the board. -/
def writeCell (h : Heap) (br : BoardRef) (r c : Int) (v : Option Piece) :
    Heap :=
  match br.rowIds.get? r.toNat with
  | some id =>
    match h.get? id with
    | some rowObj => h.set id (fun c' => if c' = c then v else rowObj c')
    | none => h
  | none => h

/-- The pure projection of a heap-allocated board. -/
def projBoard (h : Heap) (br : BoardRef) : Board :=
  { board := fun r c => readCell h br r c
    en_passant_target := br.en_passant_target
    current_player := br.current_player
    move_history := br.move_history }

/-- Source `temp_board = Board()` followed by
`temp_board.board = [row[:] for row in self.board]`: allocate eight fresh
rows copying the queried board's rows; the scalar attributes are the reset
ones. -/
def copyBoard (h : Heap) (br : BoardRef) : Heap × BoardRef :=
  (h ++ (List.range 8).map (fun i => fun c => readCell h br (Int.ofNat i) c),
   { rowIds := (List.range 8).map (fun i => h.length + i)
     en_passant_target := none
     current_player := Color.WHITE
     move_history := [] })

/-- Source `Board.make_move` on a heap-allocated board, the mover already fetched
(inside `get_legal_moves` the origin is always occupied): the same write
sequence as `make_move_aux`, threading the heap. -/
def make_move_h (piece : Piece) (h : Heap) (br : BoardRef)
    (s e : Int × Int) : Heap × BoardRef :=
  let h1 : Heap :=
    if piece.type = PieceType.PAWN ∧ br.en_passant_target = some e then
      writeCell h br s.1 e.2 none
    else h
  let h2 : Heap := writeCell h1 br e.1 e.2 (some piece)
  let h3 : Heap := writeCell h2 br s.1 s.2 none
  let h4 : Heap :=
    if piece.type = PieceType.PAWN ∧ (e.1 = 0 ∨ e.1 = 7) then
      writeCell h3 br e.1 e.2 (some ⟨piece.color, PieceType.QUEEN⟩)
    else h3
  (h4,
   { rowIds := br.rowIds
     en_passant_target :=
       if piece.type = PieceType.PAWN ∧ (s.1 - e.1).natAbs = 2 then
         some (e.1 + Int.fdiv (s.1 - e.1) 2, e.2)
       else none
     current_player :=
       if br.current_player = Color.WHITE then Color.BLACK else Color.WHITE
     move_history := br.move_history ++ [(s, e)] })

/-- One iteration of the `get_legal_moves` loop: allocate the scratch
copy, simulate the move on it, keep the destination when the mover's color
is not left in check. -/
def legalSimStep (piece : Piece) (br : BoardRef) (row col : Int)
    (acc : Heap × List (Int × Int)) (m : Int × Int) :
    Heap × List (Int × Int) :=
  let tmp := copyBoard acc.1 br
  let sim := make_move_h piece tmp.1 tmp.2 (row, col) m
  if Board.is_in_check (projBoard sim.1 sim.2) piece.color then
    (sim.1, acc.2)
  else (sim.1, acc.2 ++ [m])

/-- Source `Board.get_legal_moves` on a heap-allocated board. -/
def get_legal_moves_h (h : Heap) (br : BoardRef) (row col : Int) :
    Heap × List (Int × Int) :=
  match (projBoard h br).get_piece row col with
  | none => (h, [])
  | some piece =>
    (piece.get_legal_moves (projBoard h br) row col).foldl
      (legalSimStep piece br row col) (h, [])

/-- A row object holding a White king at its column 0. -/
def kingRow : Row :=
  fun c => if c = 0 then some ⟨Color.WHITE, PieceType.KING⟩ else none

/-- An all-empty row object. -/
def emptyRow : Row := fun _ => none

/-- A heap of eight rows: a White king at (0, 0), everything else empty. -/
def heap0 : Heap :=
  [kingRow, emptyRow, emptyRow, emptyRow, emptyRow, emptyRow, emptyRow,
   emptyRow]

/-- The board object referencing those eight rows. -/
def bref0 : BoardRef :=
  { rowIds := [0, 1, 2, 3, 4, 5, 6, 7]
    en_passant_target := none
    current_player := Color.WHITE
    move_history := [] }

/-- C1 counterexample: in the en-passant pin position, the code keeps the
en-passant capture (3,4) → (2,3) as legal, even though simulating that move by
`apply_move` on a copy of the position that keeps its en-passant target leaves
White in check (the captured pawn's removal opens the rook's line to the
king).  The scratch copy built by `get_legal_moves` loses the en-passant
target, contradicting the claim. -/
theorem get_legal_moves_keeps_ep_capture_into_check :
    Board.get_piece bEpPin 3 4 = some ⟨Color.WHITE, PieceType.PAWN⟩ ∧
    (2, 3) ∈ Board.get_legal_moves bEpPin 3 4 ∧
    Board.is_in_check
      (Board.make_move_aux ⟨Color.WHITE, PieceType.PAWN⟩ bEpPin (3, 4) (2, 3))
      Color.WHITE = true := by decide

/-- C1 (amended): `legal_moves` returns exactly those pseudo-legal
destinations of the piece at the square for which simulating the move via
`apply_move` on a scratch copy carrying this position's grid but a CLEARED
en-passant target (and a reset side-to-move and history) leaves the mover's
color not in check. -/
theorem get_legal_moves_filters_by_simulation
    (b : Board) (row col : Int) (piece : Piece)
    (hp : b.get_piece row col = some piece) (m : Int × Int) :
    m ∈ b.get_legal_moves row col ↔
      m ∈ piece.get_legal_moves b row col ∧
        Board.is_in_check
          (Board.make_move_aux piece
            { board := b.board
              en_passant_target := none
              current_player := Color.WHITE
              move_history := [] } (row, col) m) piece.color = false := by
  unfold Board.get_legal_moves
  rw [hp]
  simp [List.mem_filter]

/-- C1 witness: the amended theorem instantiated in the en-passant pin
position at the plain pawn push (2, 4). -/
theorem get_legal_moves_filters_by_simulation_witness :
    (2, 4) ∈ Board.get_legal_moves bEpPin 3 4 ↔
      (2, 4) ∈ Piece.get_legal_moves ⟨Color.WHITE, PieceType.PAWN⟩ bEpPin 3 4 ∧
        Board.is_in_check
          (Board.make_move_aux ⟨Color.WHITE, PieceType.PAWN⟩
            { board := bEpPin.board
              en_passant_target := none
              current_player := Color.WHITE
              move_history := [] } (3, 4) (2, 4)) Color.WHITE = false :=
  get_legal_moves_filters_by_simulation bEpPin 3 4
    ⟨Color.WHITE, PieceType.PAWN⟩ (by decide) (2, 4)

/-- Reading a cell of an updated grid. -/
theorem setCell_eval (g : Grid) (row col : Int) (v : Option Piece)
    (r c : Int) :
    setCell g row col v r c = if r = row ∧ c = col then v else g r c := rfl

/-- C2: when a pawn is moved to the current en-passant target, `make_move`
clears the square with the origin's row and the destination's column — the
captured pawn's actual square — while the target square itself ends up
occupied (by the moved pawn). -/
theorem make_move_en_passant_capture
    (b : Board) (sr sc er ec : Int) (p q : Piece)
    (hp : b.board sr sc = some p) (hpt : p.type = PieceType.PAWN)
    (hep : b.en_passant_target = some (er, ec))
    (hq : b.get_piece sr ec = some q) (hqc : q.color ≠ p.color)
    (hqt : q.type = PieceType.PAWN)
    (hr : sr ≠ er) :
    ∃ b', Board.make_move b (sr, sc) (er, ec) = Except.ok b' ∧
      b'.board sr ec = none ∧ (b'.board er ec).isSome = true := by
  have hr' : ¬er = sr := fun h => hr h.symm
  refine ⟨Board.make_move_aux p b (sr, sc) (er, ec), ?_, ?_, ?_⟩
  · simp [Board.make_move, hp]
  · simp only [Board.make_move_aux, hpt, hep, eq_self_iff_true, and_self,
      true_and, if_true]
    split_ifs with h1 <;>
      by_cases hec : ec = sc <;> simp [setCell_eval, hr, hec]
  · simp only [Board.make_move_aux, hpt, hep, eq_self_iff_true, and_self,
      true_and, if_true]
    split_ifs with h1 <;> simp [setCell_eval, hr, hr']

/-- C2 witness: Black's pawn captures en passant to (5, 3); the White pawn
disappears from its actual square (4, 3) and the target square is occupied. -/
theorem make_move_en_passant_capture_witness :
    ∃ b', Board.make_move bEpBlack (4, 4) (5, 3) = Except.ok b' ∧
      b'.board 4 3 = none ∧ (b'.board 5 3).isSome = true :=
  make_move_en_passant_capture bEpBlack 4 4 5 3
    ⟨Color.BLACK, PieceType.PAWN⟩ ⟨Color.WHITE, PieceType.PAWN⟩
    (by decide) (by decide) (by decide) (by decide) (by decide) (by decide)
    (by decide)

/-- C3: after `make_move`, the en-passant target is the square between
origin and destination whenever the mover is a pawn whose row changed by
exactly two (in either direction), and `None` for every other move.  The
source computes the intermediate row as
`end_row + (start_row - end_row) // 2` (Python floor division). -/
theorem make_move_sets_en_passant_target
    (b : Board) (sr sc er ec : Int) (p : Piece)
    (hp : b.board sr sc = some p) :
    ∃ b', Board.make_move b (sr, sc) (er, ec) = Except.ok b' ∧
      b'.en_passant_target =
        (if p.type = PieceType.PAWN ∧ sr = er + 2 then some (er + 1, ec)
         else if p.type = PieceType.PAWN ∧ er = sr + 2 then some (sr + 1, ec)
         else none) := by
  refine ⟨Board.make_move_aux p b (sr, sc) (er, ec),
    by simp [Board.make_move, hp], ?_⟩
  show (if p.type = PieceType.PAWN ∧ (sr - er).natAbs = 2 then
          some (er + Int.fdiv (sr - er) 2, ec) else none) = _
  by_cases hpt : p.type = PieceType.PAWN
  · by_cases hd1 : sr = er + 2
    · have h2 : sr - er = 2 := by omega
      rw [if_pos ⟨hpt, by rw [h2]; rfl⟩, if_pos ⟨hpt, hd1⟩, h2]
      rfl
    · by_cases hd2 : er = sr + 2
      · have h2 : sr - er = -2 := by omega
        rw [if_pos ⟨hpt, by rw [h2]; rfl⟩, if_neg (fun h => hd1 h.2),
          if_pos ⟨hpt, hd2⟩, h2,
          show Int.fdiv (-2 : Int) 2 = -1 by decide]
        have : er + -1 = sr + 1 := by omega
        rw [this]
      · rw [if_neg (fun h => by omega),
          if_neg (fun h => hd1 h.2), if_neg (fun h => hd2 h.2)]
  · rw [if_neg (fun h => hpt h.1), if_neg (fun h => hpt h.1),
      if_neg (fun h => hpt h.1)]

/-- C3 witness: the double-step (6, 4) → (4, 4) from the starting position
sets the en-passant target; the formula gives (5, 4). -/
theorem make_move_sets_en_passant_target_witness :
    ∃ b', Board.make_move initialBoard (6, 4) (4, 4) = Except.ok b' ∧
      b'.en_passant_target =
        (if PieceType.PAWN = PieceType.PAWN ∧ (6 : Int) = 4 + 2 then
          some (4 + 1, 4)
         else if PieceType.PAWN = PieceType.PAWN ∧ (4 : Int) = 6 + 2 then
          some (6 + 1, 4)
         else none) :=
  make_move_sets_en_passant_target initialBoard 6 4 4 4
    ⟨Color.WHITE, PieceType.PAWN⟩ (by decide)

/-- C4 counterexample: a Black pawn moved to row 0 — which is NOT the
farthest rank for its color (that would be row 7) — still becomes a Black
queen, because the source tests `end_row == 0 or end_row == 7` without
looking at the mover's color.  The claim's if-and-only-if fails at this
input. -/
theorem make_move_promotes_black_pawn_on_row_zero :
    bBlackPawn.board 1 0 = some ⟨Color.BLACK, PieceType.PAWN⟩ ∧
    ¬(((Board.make_move_aux ⟨Color.BLACK, PieceType.PAWN⟩ bBlackPawn
          (1, 0) (0, 0)).board 0 0 = some ⟨Color.BLACK, PieceType.QUEEN⟩) ↔
        ((0 : Int) = 7)) := by decide

/-- C4 (amended): for a move whose origin holds a piece and whose
destination differs from the origin, the destination cell after `make_move`
holds a queen of the mover's color if and only if the mover was itself a
queen, or the mover was a pawn and the destination row is 0 or 7 — for
either color.  The promotion happens inside `make_move` (apply time); the
generators never produce queens. -/
theorem make_move_queen_at_destination_iff
    (b : Board) (sr sc er ec : Int) (p : Piece)
    (hp : b.board sr sc = some p) (hne : ¬(sr = er ∧ sc = ec)) :
    ∃ b', Board.make_move b (sr, sc) (er, ec) = Except.ok b' ∧
      (b'.board er ec = some ⟨p.color, PieceType.QUEEN⟩ ↔
        (p.type = PieceType.QUEEN ∨
          (p.type = PieceType.PAWN ∧ (er = 0 ∨ er = 7)))) := by
  have hne' : ¬(er = sr ∧ ec = sc) := fun h => hne ⟨h.1.symm, h.2.symm⟩
  refine ⟨Board.make_move_aux p b (sr, sc) (er, ec),
    by simp [Board.make_move, hp], ?_⟩
  simp only [Board.make_move_aux]
  by_cases hq : p.type = PieceType.PAWN ∧ (er = 0 ∨ er = 7)
  · simp only [hq, and_true, if_pos, if_true]
    simp [setCell_eval, hq]
  · rw [if_neg (by simpa using hq)]
    simp only [setCell_eval, hne', if_neg, if_false, eq_self_iff_true,
      and_self, if_true, if_pos]
    cases p with
    | mk pc pt =>
      simp only [Option.some.injEq, Piece.mk.injEq, eq_self_iff_true, true_and]
      constructor
      · intro ht
        exact Or.inl ht
      · intro h
        rcases h with h | h
        · exact h
        · exact absurd h hq

/-- C4 witness: a White pawn moving (1, 3) → (0, 3) is a pawn reaching
row 0, and the destination indeed ends up a White queen. -/
theorem make_move_queen_at_destination_iff_witness :
    ∃ b', Board.make_move bWhitePawn (1, 3) (0, 3) = Except.ok b' ∧
      (b'.board 0 3 = some ⟨Color.WHITE, PieceType.QUEEN⟩ ↔
        (PieceType.PAWN = PieceType.QUEEN ∨
          (PieceType.PAWN = PieceType.PAWN ∧ ((0 : Int) = 0 ∨ (0 : Int) = 7)))) :=
  make_move_queen_at_destination_iff bWhitePawn 1 3 0 3
    ⟨Color.WHITE, PieceType.PAWN⟩ (by decide) (by decide)

/-- A square holding a piece is on the board. -/
theorem get_piece_valid {b : Board} {r c : Int} {p : Piece}
    (h : b.get_piece r c = some p) : is_valid_position r c = true := by
  by_cases hv : is_valid_position r c
  · exact hv
  · simp [Board.get_piece, hv] at h

/-- Membership in the scan list `range(8)`. -/
theorem mem_range8 {r : Int} (h0 : 0 ≤ r) (h8 : r < 8) : r ∈ range8 := by
  simp only [range8, List.mem_cons, List.not_mem_nil, or_false]
  omega

/-- Source `is_square_attacked` holds exactly when some piece of the attacking
color has the square among its pseudo-legal moves. -/
theorem is_square_attacked_iff (b : Board) (row col : Int) (ac : Color) :
    b.is_square_attacked row col ac = true ↔
      ∃ r c piece, b.get_piece r c = some piece ∧ piece.color = ac ∧
        (row, col) ∈ piece.get_legal_moves b r c := by
  unfold Board.is_square_attacked
  rw [List.any_eq_true]
  constructor
  · rintro ⟨r, hr, h⟩
    rw [List.any_eq_true] at h
    obtain ⟨c, hc, h⟩ := h
    cases hpc : b.get_piece r c with
    | none => rw [hpc] at h; simp at h
    | some piece =>
      rw [hpc] at h
      simp only [Bool.and_eq_true, decide_eq_true_eq] at h
      exact ⟨r, c, piece, hpc, h.1, h.2⟩
  · rintro ⟨r, c, piece, hpc, hcol, hmem⟩
    have hv : (0 ≤ r ∧ r < 8 ∧ 0 ≤ c ∧ c < 8) := by
      simpa [is_valid_position] using get_piece_valid hpc
    refine ⟨r, mem_range8 hv.1 hv.2.1, ?_⟩
    rw [List.any_eq_true]
    refine ⟨c, mem_range8 hv.2.2.1 hv.2.2.2, ?_⟩
    rw [hpc]
    simp [hcol, hmem]

/-- C6: `is_in_check` returns `false` when the color has no king, and
otherwise is true exactly when the king's square is among the pseudo-legal
moves of some piece of the opposing color.  The no-king case is an ordinary
`false` return, not a failure. -/
theorem is_in_check_characterization (b : Board) (color : Color) :
    (b.find_king color = none → b.is_in_check color = false) ∧
    (∀ k, b.find_king color = some k →
      (b.is_in_check color = true ↔
        ∃ r c piece, b.get_piece r c = some piece ∧
          piece.color = (if color = Color.WHITE then Color.BLACK else Color.WHITE) ∧
          k ∈ piece.get_legal_moves b r c)) := by
  constructor
  · intro hk
    simp [Board.is_in_check, hk]
  · intro k hk
    rw [Board.is_in_check, hk]
    exact is_square_attacked_iff b k.1 k.2 _

/-- C6 witness: on the empty board, White has no king and `is_in_check`
returns `false` normally. -/
theorem is_in_check_characterization_witness :
    Board.is_in_check bEmpty Color.WHITE = false :=
  (is_in_check_characterization bEmpty Color.WHITE).1 (by decide)

/-- The nested scan shared by `is_checkmate` and `is_stalemate` succeeds
exactly when every piece of the color has an empty `get_legal_moves`
result. -/
theorem no_moves_scan_iff (b : Board) (color : Color) :
    (range8.all (fun row => range8.all (fun col =>
      match b.get_piece row col with
      | some piece =>
        if piece.color = color then (b.get_legal_moves row col).isEmpty
        else true
      | none => true)) = true) ↔
      (∀ r c piece, b.get_piece r c = some piece → piece.color = color →
        b.get_legal_moves r c = []) := by
  rw [List.all_eq_true]
  constructor
  · intro h r c piece hpc hcol
    have hv : (0 ≤ r ∧ r < 8 ∧ 0 ≤ c ∧ c < 8) := by
      simpa [is_valid_position] using get_piece_valid hpc
    have h1 := h r (mem_range8 hv.1 hv.2.1)
    rw [List.all_eq_true] at h1
    have h2 := h1 c (mem_range8 hv.2.2.1 hv.2.2.2)
    rw [hpc] at h2
    simp only [hcol, if_true, eq_self_iff_true] at h2
    simpa using h2
  · intro h r _
    rw [List.all_eq_true]
    intro c _
    cases hpc : b.get_piece r c with
    | none => simp
    | some piece =>
      by_cases hcol : piece.color = color
      · simpa [hcol] using congrArg List.isEmpty (h r c piece hpc hcol)
      · simp [hcol]

/-- C5: `is_checkmate` holds iff the color is in check and every piece of
that color has an empty `legal_moves` result; `is_stalemate` holds iff the
color is NOT in check and every such piece has an empty `legal_moves`
result; hence the two predicates are never both true. -/
theorem checkmate_stalemate_characterization (b : Board) (color : Color) :
    (b.is_checkmate color = true ↔
      (b.is_in_check color = true ∧
        ∀ r c piece, b.get_piece r c = some piece → piece.color = color →
          b.get_legal_moves r c = [])) ∧
    (b.is_stalemate color = true ↔
      (b.is_in_check color = false ∧
        ∀ r c piece, b.get_piece r c = some piece → piece.color = color →
          b.get_legal_moves r c = [])) ∧
    ((b.is_checkmate color && b.is_stalemate color) = false) := by
  refine ⟨?_, ?_, ?_⟩
  · rw [Board.is_checkmate, Bool.and_eq_true, no_moves_scan_iff]
  · rw [Board.is_stalemate, Bool.and_eq_true, Bool.not_eq_true',
      no_moves_scan_iff]
  · cases hc : b.is_in_check color <;>
      simp [Board.is_checkmate, Board.is_stalemate, hc]

/-- C5 witness: in the en-passant pin position, checkmate and stalemate for
White are not both true. -/
theorem checkmate_stalemate_characterization_witness :
    (Board.is_checkmate bEpPin Color.WHITE &&
      Board.is_stalemate bEpPin Color.WHITE) = false :=
  (checkmate_stalemate_characterization bEpPin Color.WHITE).2.2

/-- C8: `make_move` on an empty origin fails loudly and changes nothing.
The source reads `piece = self.board[start_row][start_col]` and immediately
dereferences `piece.type`; with an empty origin this raises before any
mutation, so the engine state observed at the failure — carried here by the
error value — has every cell, the side to move, the en-passant target and
the move history exactly as before the call. -/
theorem make_move_empty_origin_errors
    (b : Board) (sr sc er ec : Int)
    (hv : is_valid_position sr sc = true)
    (h : b.board sr sc = none) :
    ∃ bx, Board.make_move b (sr, sc) (er, ec) = Except.error bx ∧
      (∀ r c, bx.board r c = b.board r c) ∧
      bx.current_player = b.current_player ∧
      bx.en_passant_target = b.en_passant_target ∧
      bx.move_history = b.move_history := by
  refine ⟨b, ?_, fun r c => rfl, rfl, rfl, rfl⟩
  simp [Board.make_move, h]

/-- C8 witness: moving from the empty square (0, 0) of the empty board
signals the error with the board untouched. -/
theorem make_move_empty_origin_errors_witness :
    ∃ bx, Board.make_move bEmpty (0, 0) (1, 1) = Except.error bx ∧
      (∀ r c, bx.board r c = bEmpty.board r c) ∧
      bx.current_player = bEmpty.current_player ∧
      bx.en_passant_target = bEmpty.en_passant_target ∧
      bx.move_history = bEmpty.move_history :=
  make_move_empty_origin_errors bEmpty 0 0 1 1 (by decide) rfl

/-- Points of a ray with a nonzero direction are indexed injectively. -/
theorem ray_inj {row col dr dc j k : Int} (hd : ¬(dr = 0 ∧ dc = 0))
    (h : (row + j * dr, col + j * dc) = (row + k * dr, col + k * dc)) :
    j = k := by
  rw [Prod.mk.injEq] at h
  obtain ⟨h1, h2⟩ := h
  rcases not_and_or.mp hd with hdr | hdc
  · have hm : j * dr = k * dr := by omega
    exact mul_right_cancel₀ hdr hm
  · have hm : j * dc = k * dc := by omega
    exact mul_right_cancel₀ hdc hm

/-- Every element produced by the sliding loop lies on the ray, with an
index between the current one and the remaining fuel. -/
theorem slideFrom_shape (b : Board) (piece : Piece) (row col dr dc : Int) :
    ∀ (fuel : Nat) (start : Int) (q : Int × Int),
      q ∈ slideFrom b piece row col dr dc fuel start →
      ∃ j, start ≤ j ∧ j < start + fuel ∧
        q = (row + j * dr, col + j * dc) := by
  intro fuel
  induction fuel with
  | zero => intro start q h; simp [slideFrom] at h
  | succ n ih =>
    intro start q h
    rw [slideFrom] at h
    by_cases hv :
        is_valid_position (row + start * dr) (col + start * dc) = true
    · rw [if_pos hv] at h
      cases hpc : b.get_piece (row + start * dr) (col + start * dc) with
      | none =>
        rw [hpc] at h
        rcases List.mem_cons.mp h with rfl | h
        · exact ⟨start, le_refl _, by omega, rfl⟩
        · obtain ⟨j, hj1, hj2, hj3⟩ := ih (start + 1) q h
          exact ⟨j, by omega, by omega, hj3⟩
      | some t =>
        rw [hpc] at h
        have h' : q ∈ (if is_enemy (some piece) (some t) = true then
            [(row + start * dr, col + start * dc)] else []) := h
        by_cases he : is_enemy (some piece) (some t) = true
        · rw [if_pos he] at h'
          rcases List.mem_singleton.mp h' with rfl
          exact ⟨start, le_refl _, by omega, rfl⟩
        · rw [if_neg he] at h'
          simp at h'
    · rw [if_neg hv] at h
      simp at h

/-- Full characterization of the sliding loop: the ray square with index
`j` is produced iff `j` is within the remaining iteration range, every
strictly earlier ray square is on the board and empty, and the square itself
is on the board and is either empty or holds an enemy piece. -/
theorem slideFrom_mem_iff (b : Board) (piece : Piece) (row col dr dc : Int)
    (hd : ¬(dr = 0 ∧ dc = 0)) :
    ∀ (fuel : Nat) (start j : Int),
      ((row + j * dr, col + j * dc) ∈
          slideFrom b piece row col dr dc fuel start ↔
        (start ≤ j ∧ j < start + fuel ∧
          (∀ k, start ≤ k → k < j →
            is_valid_position (row + k * dr) (col + k * dc) = true ∧
            b.get_piece (row + k * dr) (col + k * dc) = none) ∧
          is_valid_position (row + j * dr) (col + j * dc) = true ∧
          (b.get_piece (row + j * dr) (col + j * dc) = none ∨
            ∃ t, b.get_piece (row + j * dr) (col + j * dc) = some t ∧
              piece.color ≠ t.color))) := by
  intro fuel
  induction fuel with
  | zero =>
    intro start j
    simp only [slideFrom, List.not_mem_nil, false_iff, not_and]
    intro h1 h2
    omega
  | succ n ih =>
    intro start j
    rw [slideFrom]
    by_cases hv : is_valid_position (row + start * dr) (col + start * dc) = true
    · rw [if_pos hv]
      cases hpc : b.get_piece (row + start * dr) (col + start * dc) with
      | none =>
        constructor
        · intro h
          rcases List.mem_cons.mp h with heq | h
          · have hj : j = start := ray_inj hd heq
            subst hj
            exact ⟨le_refl _, by omega, fun k hk1 hk2 => by omega, hv,
              Or.inl hpc⟩
          · obtain ⟨h1, h2, h3, h4, h5⟩ := (ih (start + 1) j).mp h
            refine ⟨by omega, by omega, ?_, h4, h5⟩
            intro k hk1 hk2
            by_cases hks : k = start
            · subst hks; exact ⟨hv, hpc⟩
            · exact h3 k (by omega) hk2
        · rintro ⟨h1, h2, h3, h4, h5⟩
          by_cases hjs : j = start
          · subst hjs; exact List.mem_cons_self _ _
          · exact List.mem_cons_of_mem _
              ((ih (start + 1) j).mpr ⟨by omega, by omega,
                fun k hk1 hk2 => h3 k (by omega) hk2, h4, h5⟩)
      | some t =>
        show (row + j * dr, col + j * dc) ∈
            (if is_enemy (some piece) (some t) = true then
              [(row + start * dr, col + start * dc)] else []) ↔ _
        by_cases he : is_enemy (some piece) (some t) = true
        · rw [if_pos he]
          constructor
          · intro h
            have hj : j = start := ray_inj hd (List.mem_singleton.mp h)
            subst hj
            refine ⟨le_refl _, by omega, fun k hk1 hk2 => by omega, hv,
              Or.inr ⟨t, hpc, ?_⟩⟩
            simpa [is_enemy] using he
          · rintro ⟨h1, h2, h3, h4, h5⟩
            by_cases hjs : j = start
            · subst hjs; exact List.mem_singleton.mpr rfl
            · have hcontra := (h3 start (le_refl _) (by omega)).2
              rw [hpc] at hcontra
              exact absurd hcontra (by simp)
        · rw [if_neg he]
          simp only [List.not_mem_nil, false_iff, not_and]
          intro h1 h2 h3
          by_cases hjs : j = start
          · subst hjs
            rintro h4 (h5 | ⟨t', ht', hne⟩)
            · rw [hpc] at h5
              exact absurd h5 (by simp)
            · rw [hpc] at ht'
              injection ht' with ht'
              subst ht'
              exact hne (by simpa [is_enemy] using he)
          · intro h4 h5
            have hcontra := (h3 start (le_refl _) (by omega)).2
            rw [hpc] at hcontra
            exact absurd hcontra (by simp)
    · rw [if_neg hv]
      simp only [List.not_mem_nil, false_iff, not_and]
      intro h1 h2 h3
      by_cases hjs : j = start
      · subst hjs
        intro h4
        exact absurd h4 hv
      · intro h4 h5
        exact absurd (h3 start (le_refl _) (by omega)).1 hv

/-- Two distinct sliding directions never produce the same destination
square from the same origin. -/
theorem slideDir_other_ray_not_mem (b : Board) (piece : Piece)
    (row col : Int) {d d' : Int × Int}
    (hd : d ∈ rookDirs ++ bishopDirs)
    (hd' : d' ∈ rookDirs ++ bishopDirs)
    (hne : d ≠ d') {i : Int} (hi : 1 ≤ i) :
    (row + i * d.1, col + i * d.2) ∉ slideDir b piece row col d'.1 d'.2 := by
  obtain ⟨a1, a2⟩ := d
  obtain ⟨c1, c2⟩ := d'
  intro hmem
  obtain ⟨j, hj1, hj2, hj3⟩ :=
    slideFrom_shape b piece row col c1 c2 7 1 _ hmem
  rw [Prod.mk.injEq] at hj3
  obtain ⟨h1, h2⟩ := hj3
  simp only [rookDirs, bishopDirs, List.mem_append, List.mem_cons,
    List.not_mem_nil, or_false, Prod.mk.injEq] at hd hd'
  rcases hd with (⟨rfl, rfl⟩ | ⟨rfl, rfl⟩ | ⟨rfl, rfl⟩ | ⟨rfl, rfl⟩) |
      ⟨rfl, rfl⟩ | ⟨rfl, rfl⟩ | ⟨rfl, rfl⟩ | ⟨rfl, rfl⟩ <;>
    rcases hd' with (⟨rfl, rfl⟩ | ⟨rfl, rfl⟩ | ⟨rfl, rfl⟩ | ⟨rfl, rfl⟩) |
      ⟨rfl, rfl⟩ | ⟨rfl, rfl⟩ | ⟨rfl, rfl⟩ | ⟨rfl, rfl⟩ <;>
    first
      | exact hne rfl
      | omega

/-- Rook moves are the union of the four orthogonal scans. -/
theorem get_rook_moves_mem_iff (b : Board) (row col : Int) (piece : Piece)
    (hp : b.get_piece row col = some piece) (q : Int × Int) :
    (q ∈ b.get_rook_moves row col ↔
      ∃ d ∈ rookDirs, q ∈ slideDir b piece row col d.1 d.2) := by
  unfold Board.get_rook_moves
  rw [hp]
  simp [List.mem_flatMap]

/-- Bishop moves are the union of the four diagonal scans. -/
theorem get_bishop_moves_mem_iff (b : Board) (row col : Int) (piece : Piece)
    (hp : b.get_piece row col = some piece) (q : Int × Int) :
    (q ∈ b.get_bishop_moves row col ↔
      ∃ d ∈ bishopDirs, q ∈ slideDir b piece row col d.1 d.2) := by
  unfold Board.get_bishop_moves
  rw [hp]
  simp [List.mem_flatMap]

/-- Queen moves are the union of all eight scans. -/
theorem get_queen_moves_mem_iff (b : Board) (row col : Int) (piece : Piece)
    (hp : b.get_piece row col = some piece) (q : Int × Int) :
    (q ∈ b.get_queen_moves row col ↔
      ∃ d ∈ rookDirs ++ bishopDirs, q ∈ slideDir b piece row col d.1 d.2) := by
  rw [Board.get_queen_moves, List.mem_append,
    get_rook_moves_mem_iff b row col piece hp q,
    get_bishop_moves_mem_iff b row col piece hp q]
  constructor
  · rintro (⟨d, hd, hq⟩ | ⟨d, hd, hq⟩)
    · exact ⟨d, List.mem_append.mpr (Or.inl hd), hq⟩
    · exact ⟨d, List.mem_append.mpr (Or.inr hd), hq⟩
  · rintro ⟨d, hd, hq⟩
    rcases List.mem_append.mp hd with hd | hd
    · exact Or.inl ⟨d, hd, hq⟩
    · exact Or.inr ⟨d, hd, hq⟩

/-- Pseudo-legal moves of a sliding piece are exactly the union of its
direction scans. -/
theorem sliding_mem_dirs (b : Board) (row col : Int) (piece : Piece)
    (hp : b.get_piece row col = some piece)
    (hk : piece.type = PieceType.ROOK ∨ piece.type = PieceType.BISHOP ∨
      piece.type = PieceType.QUEEN) (q : Int × Int) :
    (q ∈ piece.get_legal_moves b row col ↔
      ∃ d ∈ slidingDirs piece.type, q ∈ slideDir b piece row col d.1 d.2) := by
  rcases hk with hk | hk | hk
  · simpa [Piece.get_legal_moves, hk, slidingDirs] using
      get_rook_moves_mem_iff b row col piece hp q
  · simpa [Piece.get_legal_moves, hk, slidingDirs] using
      get_bishop_moves_mem_iff b row col piece hp q
  · simpa [Piece.get_legal_moves, hk, slidingDirs] using
      get_queen_moves_mem_iff b row col piece hp q

/-- A sliding piece's scan directions are among the eight. -/
theorem slidingDirs_subset {t : PieceType} {d : Int × Int}
    (h : d ∈ slidingDirs t) : d ∈ rookDirs ++ bishopDirs := by
  cases t <;>
    simp only [slidingDirs, List.not_mem_nil, List.mem_append] at h ⊢ <;>
    tauto

/-- No scan direction is the zero vector. -/
theorem dir_nonzero {d : Int × Int} (hd : d ∈ rookDirs ++ bishopDirs) :
    ¬(d.1 = 0 ∧ d.2 = 0) := by
  obtain ⟨a, c⟩ := d
  simp only [rookDirs, bishopDirs, List.mem_append, List.mem_cons,
    List.not_mem_nil, or_false, Prod.mk.injEq] at hd
  rintro ⟨rfl, rfl⟩
  rcases hd with (⟨h1, h2⟩ | ⟨h1, h2⟩ | ⟨h1, h2⟩ | ⟨h1, h2⟩) |
      ⟨h1, h2⟩ | ⟨h1, h2⟩ | ⟨h1, h2⟩ | ⟨h1, h2⟩ <;> omega

/-- A ray square that is still on the board has index at most 7 when the
origin is on the board. -/
theorem ray_index_bound {d : Int × Int} (hd : d ∈ rookDirs ++ bishopDirs)
    {row col i : Int}
    (ho : is_valid_position row col = true)
    (hv : is_valid_position (row + i * d.1) (col + i * d.2) = true)
    (hi : 1 ≤ i) : i ≤ 7 := by
  obtain ⟨a, c⟩ := d
  simp only [is_valid_position, decide_eq_true_eq] at ho hv
  simp only [rookDirs, bishopDirs, List.mem_append, List.mem_cons,
    List.not_mem_nil, or_false, Prod.mk.injEq] at hd
  rcases hd with (⟨rfl, rfl⟩ | ⟨rfl, rfl⟩ | ⟨rfl, rfl⟩ | ⟨rfl, rfl⟩) |
      ⟨rfl, rfl⟩ | ⟨rfl, rfl⟩ | ⟨rfl, rfl⟩ | ⟨rfl, rfl⟩ <;> omega

/-- C7: for a rook, bishop or queen, each direction scan includes every
empty ray square up to the first occupied square or the board edge,
includes the first occupied square exactly when it holds an enemy piece,
and generates nothing beyond the first occupied square of that
direction. -/
theorem sliding_moves_direction_scan
    (b : Board) (row col : Int) (piece : Piece)
    (hp : b.get_piece row col = some piece)
    (hk : piece.type = PieceType.ROOK ∨ piece.type = PieceType.BISHOP ∨
      piece.type = PieceType.QUEEN)
    (d : Int × Int) (hd : d ∈ slidingDirs piece.type) (i : Int)
    (hi : 1 ≤ i) :
    ((∀ k, 1 ≤ k → k < i →
        is_valid_position (row + k * d.1) (col + k * d.2) = true ∧
        b.get_piece (row + k * d.1) (col + k * d.2) = none) →
      (is_valid_position (row + i * d.1) (col + i * d.2) = true →
        b.get_piece (row + i * d.1) (col + i * d.2) = none →
        (row + i * d.1, col + i * d.2) ∈ piece.get_legal_moves b row col) ∧
      (∀ t, b.get_piece (row + i * d.1) (col + i * d.2) = some t →
        ((row + i * d.1, col + i * d.2) ∈ piece.get_legal_moves b row col ↔
          piece.color ≠ t.color))) ∧
    ((∃ j, 1 ≤ j ∧ j < i ∧
        b.get_piece (row + j * d.1) (col + j * d.2) ≠ none) →
      (row + i * d.1, col + i * d.2) ∉ piece.get_legal_moves b row col) := by
  have hd8 := slidingDirs_subset hd
  have hdz : ¬(d.1 = 0 ∧ d.2 = 0) := dir_nonzero hd8
  have hvo : is_valid_position row col = true := get_piece_valid hp
  have hmem := sliding_mem_dirs b row col piece hp hk
  have hiff := slideFrom_mem_iff b piece row col d.1 d.2 hdz 7 1
  constructor
  · intro hpre
    constructor
    · intro hval hempty
      have hb : i ≤ 7 := ray_index_bound hd8 hvo hval hi
      refine (hmem _).mpr ⟨d, hd, ?_⟩
      show _ ∈ slideFrom b piece row col d.1 d.2 7 1
      exact (hiff i).mpr ⟨hi, by omega, hpre, hval, Or.inl hempty⟩
    · intro t ht
      have hval : is_valid_position (row + i * d.1) (col + i * d.2) = true :=
        get_piece_valid ht
      have hb : i ≤ 7 := ray_index_bound hd8 hvo hval hi
      constructor
      · intro hin
        obtain ⟨d', hd', hq⟩ := (hmem _).mp hin
        by_cases hde : d = d'
        · subst hde
          have hfacts := (hiff i).mp hq
          rcases hfacts.2.2.2.2 with hnone | ⟨t', ht', hcol⟩
          · rw [ht] at hnone
            exact absurd hnone (by simp)
          · rw [ht] at ht'
            injection ht' with h
            subst h
            exact hcol
        · exact absurd hq (slideDir_other_ray_not_mem b piece row col hd8
            (slidingDirs_subset hd') hde hi)
      · intro hcol
        refine (hmem _).mpr ⟨d, hd, ?_⟩
        show _ ∈ slideFrom b piece row col d.1 d.2 7 1
        exact (hiff i).mpr ⟨hi, by omega, hpre, hval, Or.inr ⟨t, ht, hcol⟩⟩
  · rintro ⟨j, hj1, hj2, hjo⟩ hin
    obtain ⟨d', hd', hq⟩ := (hmem _).mp hin
    by_cases hde : d = d'
    · subst hde
      have hfacts := (hiff i).mp hq
      exact hjo (hfacts.2.2.1 j hj1 hj2).2
    · exact absurd hq (slideDir_other_ray_not_mem b piece row col hd8
        (slidingDirs_subset hd') hde hi)

/-- C7 witness: scanning right from (3, 3), the square (3, 4) is empty and
(3, 5) holds the first occupied square — a Black pawn — so (3, 5) is
generated exactly because it holds an enemy. -/
theorem sliding_moves_direction_scan_witness :
    (3, 5) ∈ Piece.get_legal_moves ⟨Color.WHITE, PieceType.ROOK⟩
        bRookScan 3 3 ↔ Color.WHITE ≠ Color.BLACK := by
  have h := (sliding_moves_direction_scan bRookScan 3 3
      ⟨Color.WHITE, PieceType.ROOK⟩ (by decide) (Or.inl rfl) (0, 1)
      (by decide) 2 (by decide)).1
      (fun k hk1 hk2 => by
        have hk : k = 1 := by omega
        subst hk
        exact ⟨by decide, by decide⟩)
  have h2 := h.2 ⟨Color.BLACK, PieceType.PAWN⟩ (by decide)
  simpa using h2

/-- Every square produced by the sliding loop is on the board. -/
theorem slideFrom_mem_valid (b : Board) (piece : Piece)
    (row col dr dc : Int) :
    ∀ (fuel : Nat) (start : Int) (q : Int × Int),
      q ∈ slideFrom b piece row col dr dc fuel start →
      is_valid_position q.1 q.2 = true := by
  intro fuel
  induction fuel with
  | zero => intro start q h; simp [slideFrom] at h
  | succ n ih =>
    intro start q h
    rw [slideFrom] at h
    by_cases hv :
        is_valid_position (row + start * dr) (col + start * dc) = true
    · rw [if_pos hv] at h
      cases hpc : b.get_piece (row + start * dr) (col + start * dc) with
      | none =>
        rw [hpc] at h
        rcases List.mem_cons.mp h with rfl | h
        · exact hv
        · exact ih (start + 1) q h
      | some t =>
        rw [hpc] at h
        have h' : q ∈ (if is_enemy (some piece) (some t) = true then
            [(row + start * dr, col + start * dc)] else []) := h
        by_cases he : is_enemy (some piece) (some t) = true
        · rw [if_pos he] at h'
          rcases List.mem_singleton.mp h' with rfl
          exact hv
        · rw [if_neg he] at h'
          simp at h'
    · rw [if_neg hv] at h
      simp at h

/-- Rook destinations are on the board. -/
theorem get_rook_moves_valid (b : Board) (row col : Int) (q : Int × Int)
    (h : q ∈ b.get_rook_moves row col) : is_valid_position q.1 q.2 = true := by
  unfold Board.get_rook_moves at h
  cases hp : b.get_piece row col with
  | none => rw [hp] at h; simp at h
  | some piece =>
    rw [hp] at h
    have h' : q ∈ rookDirs.flatMap
        (fun d => slideDir b piece row col d.1 d.2) := h
    obtain ⟨d, hd, hq⟩ := List.mem_flatMap.mp h'
    exact slideFrom_mem_valid b piece row col d.1 d.2 7 1 q hq

/-- Bishop destinations are on the board. -/
theorem get_bishop_moves_valid (b : Board) (row col : Int) (q : Int × Int)
    (h : q ∈ b.get_bishop_moves row col) :
    is_valid_position q.1 q.2 = true := by
  unfold Board.get_bishop_moves at h
  cases hp : b.get_piece row col with
  | none => rw [hp] at h; simp at h
  | some piece =>
    rw [hp] at h
    have h' : q ∈ bishopDirs.flatMap
        (fun d => slideDir b piece row col d.1 d.2) := h
    obtain ⟨d, hd, hq⟩ := List.mem_flatMap.mp h'
    exact slideFrom_mem_valid b piece row col d.1 d.2 7 1 q hq

/-- Knight destinations are on the board. -/
theorem get_knight_moves_valid (b : Board) (row col : Int) (q : Int × Int)
    (h : q ∈ b.get_knight_moves row col) :
    is_valid_position q.1 q.2 = true := by
  unfold Board.get_knight_moves at h
  cases hp : b.get_piece row col with
  | none => rw [hp] at h; simp at h
  | some piece =>
    rw [hp] at h
    have h' : q ∈ (knightOffsets.map (fun d => (row + d.1, col + d.2))).filter
        (fun q =>
          is_valid_position q.1 q.2 ∧
            (b.get_piece q.1 q.2 = none ∨
              is_enemy (some piece) (b.get_piece q.1 q.2) = true)) := h
    have := (List.mem_filter.mp h').2
    simp only [decide_eq_true_eq] at this
    exact this.1

/-- King destinations are on the board. -/
theorem get_king_moves_valid (b : Board) (row col : Int) (q : Int × Int)
    (h : q ∈ b.get_king_moves row col) :
    is_valid_position q.1 q.2 = true := by
  unfold Board.get_king_moves at h
  cases hp : b.get_piece row col with
  | none => rw [hp] at h; simp at h
  | some piece =>
    rw [hp] at h
    have h' : q ∈ (kingOffsets.map (fun d => (row + d.1, col + d.2))).filter
        (fun q =>
          is_valid_position q.1 q.2 ∧
            (b.get_piece q.1 q.2 = none ∨
              is_enemy (some piece) (b.get_piece q.1 q.2) = true)) := h
    have := (List.mem_filter.mp h').2
    simp only [decide_eq_true_eq] at this
    exact this.1

/-- Pawn destinations are on the board, provided the pawn is not on the
farthest rank for its color: the forward push performs no bounds check of
its own (`get_piece` merely reports off-board squares as empty). -/
theorem get_pawn_moves_valid (b : Board) (row col : Int) (piece : Piece)
    (hp : b.get_piece row col = some piece)
    (hw : piece.color = Color.WHITE → row ≠ 0)
    (hbl : piece.color = Color.BLACK → row ≠ 7) :
    ∀ q ∈ b.get_pawn_moves row col, is_valid_position q.1 q.2 = true := by
  intro q hq
  have hv : 0 ≤ row ∧ row < 8 ∧ 0 ≤ col ∧ col < 8 := by
    simpa [is_valid_position, decide_eq_true_eq] using get_piece_valid hp
  unfold Board.get_pawn_moves at hq
  rw [hp] at hq
  have hq' : q ∈
      ((if b.get_piece
            (row + (if piece.color = Color.WHITE then (-1 : Int) else 1))
            col = none then
          (row + (if piece.color = Color.WHITE then (-1 : Int) else 1), col) ::
            (if row = (if piece.color = Color.WHITE then (6 : Int) else 1) ∧
                b.get_piece
                  (row + 2 *
                    (if piece.color = Color.WHITE then (-1 : Int) else 1))
                  col = none then
              [(row + 2 *
                  (if piece.color = Color.WHITE then (-1 : Int) else 1), col)]
            else [])
        else []) ++
        ((([-1, 1] : List Int).map
            (fun dcol =>
              (row + (if piece.color = Color.WHITE then (-1 : Int) else 1),
                col + dcol))).filter
          (fun qq => is_valid_position qq.1 qq.2 ∧
            (is_enemy (some piece) (b.get_piece qq.1 qq.2) = true ∨
              b.en_passant_target = some qq)))) := hq
  cases hc : piece.color with
  | WHITE =>
    have hrow : row ≠ 0 := hw hc
    simp only [hc, eq_self_iff_true, if_true, List.mem_append,
      List.mem_filter, List.mem_map, List.mem_cons, List.mem_singleton,
      decide_eq_true_eq] at hq'
    rcases hq' with hf | hcap
    · by_cases h1 : b.get_piece (row + -1) col = none
      · rw [if_pos h1] at hf
        rcases List.mem_cons.mp hf with rfl | hf2
        · simp only [is_valid_position, decide_eq_true_eq]
          omega
        · by_cases h2 : row = 6 ∧ b.get_piece (row + 2 * -1) col = none
          · rw [if_pos h2] at hf2
            rcases List.mem_singleton.mp hf2 with rfl
            have h6 := h2.1
            simp only [is_valid_position, decide_eq_true_eq]
            omega
          · rw [if_neg h2] at hf2
            simp at hf2
      · rw [if_neg h1] at hf
        simp at hf
    · exact hcap.2.1
  | BLACK =>
    have hrow : row ≠ 7 := hbl hc
    simp only [hc, List.mem_append, List.mem_filter, List.mem_map,
      List.mem_cons, List.mem_singleton, decide_eq_true_eq,
      reduceCtorEq, if_false] at hq'
    rcases hq' with hf | hcap
    · by_cases h1 : b.get_piece (row + 1) col = none
      · rw [if_pos h1] at hf
        rcases List.mem_cons.mp hf with rfl | hf2
        · simp only [is_valid_position, decide_eq_true_eq]
          omega
        · by_cases h2 : row = 1 ∧ b.get_piece (row + 2 * 1) col = none
          · rw [if_pos h2] at hf2
            rcases List.mem_singleton.mp hf2 with rfl
            have h6 := h2.1
            simp only [is_valid_position, decide_eq_true_eq]
            omega
          · rw [if_neg h2] at hf2
            simp at hf2
      · rw [if_neg h1] at hf
        simp at hf
    · exact hcap.2.1

/-- C10: every destination generated for a rook, knight, bishop, queen or
king lies within the 8×8 board; for a pawn the same holds under the
precondition that it is not on its farthest rank (row 0 for White, row 7
for Black), which the forward generation relies on. -/
theorem pseudo_moves_on_board (b : Board) (row col : Int) (piece : Piece)
    (hp : b.get_piece row col = some piece) :
    (piece.type ≠ PieceType.PAWN →
      ∀ q ∈ piece.get_legal_moves b row col,
        is_valid_position q.1 q.2 = true) ∧
    (piece.type = PieceType.PAWN →
      (piece.color = Color.WHITE → row ≠ 0) →
      (piece.color = Color.BLACK → row ≠ 7) →
      ∀ q ∈ piece.get_legal_moves b row col,
        is_valid_position q.1 q.2 = true) := by
  constructor
  · intro hne q hq
    unfold Piece.get_legal_moves at hq
    cases ht : piece.type with
    | PAWN => exact absurd ht hne
    | ROOK =>
      rw [ht] at hq
      exact get_rook_moves_valid b row col q hq
    | KNIGHT =>
      rw [ht] at hq
      exact get_knight_moves_valid b row col q hq
    | BISHOP =>
      rw [ht] at hq
      exact get_bishop_moves_valid b row col q hq
    | QUEEN =>
      rw [ht] at hq
      have hq' : q ∈ b.get_rook_moves row col ++ b.get_bishop_moves row col :=
        hq
      rcases List.mem_append.mp hq' with h | h
      · exact get_rook_moves_valid b row col q h
      · exact get_bishop_moves_valid b row col q h
    | KING =>
      rw [ht] at hq
      exact get_king_moves_valid b row col q hq
  · intro ht hw hbl q hq
    unfold Piece.get_legal_moves at hq
    rw [ht] at hq
    exact get_pawn_moves_valid b row col piece hp hw hbl q hq

/-- C10 witness: from the starting position, the knight on (7, 1) is not a
pawn and its generated destination (5, 0) is on the board. -/
theorem pseudo_moves_on_board_witness :
    is_valid_position (5 : Int) (0 : Int) = true :=
  (pseudo_moves_on_board initialBoard 7 1 ⟨Color.WHITE, PieceType.KNIGHT⟩
      (by decide)).1 (by decide) (5, 0) (by decide)

/-- A write through a board whose row ids all lie at or above `n` leaves
every heap entry below `n` unchanged. -/
theorem writeCell_preserve {n : Nat} (h : Heap) (tbr : BoardRef)
    (r c : Int) (v : Option Piece)
    (hids : ∀ id ∈ tbr.rowIds, n ≤ id) {j : Nat} (hj : j < n) :
    (writeCell h tbr r c v).get? j = h.get? j := by
  cases hr : tbr.rowIds.get? r.toNat with
  | none =>
    have hw : writeCell h tbr r c v = h := by
      unfold writeCell
      rw [hr]
    rw [hw]
  | some id =>
    have hw : writeCell h tbr r c v =
        (match h.get? id with
         | some rowObj => h.set id (fun c' => if c' = c then v else rowObj c')
         | none => h) := by
      unfold writeCell
      rw [hr]
    rw [hw]
    cases hh : h.get? id with
    | none => rfl
    | some rowObj =>
      have hid : n ≤ id := hids id (List.get?_mem hr)
      have hne : id ≠ j := by omega
      exact List.get?_set_ne _ _ hne

/-- Writes do not change the number of allocated rows. -/
theorem writeCell_length (h : Heap) (tbr : BoardRef) (r c : Int)
    (v : Option Piece) : (writeCell h tbr r c v).length = h.length := by
  cases hr : tbr.rowIds.get? r.toNat with
  | none =>
    have hw : writeCell h tbr r c v = h := by
      unfold writeCell
      rw [hr]
    rw [hw]
  | some id =>
    have hw : writeCell h tbr r c v =
        (match h.get? id with
         | some rowObj => h.set id (fun c' => if c' = c then v else rowObj c')
         | none => h) := by
      unfold writeCell
      rw [hr]
    rw [hw]
    cases hh : h.get? id with
    | none => rfl
    | some rowObj => exact List.length_set h id _

/-- The copy leaves every existing heap entry unchanged. -/
theorem copyBoard_heap_get? (h : Heap) (br : BoardRef) {j : Nat}
    (hj : j < h.length) : (copyBoard h br).1.get? j = h.get? j :=
  List.get?_append hj

/-- All row ids of the copy are fresh. -/
theorem copyBoard_ids (h : Heap) (br : BoardRef) :
    ∀ id ∈ (copyBoard h br).2.rowIds, h.length ≤ id := by
  intro id hid
  simp only [copyBoard, List.mem_map, List.mem_range] at hid
  obtain ⟨i, hi, rfl⟩ := hid
  omega

/-- The copy allocates eight rows. -/
theorem copyBoard_length (h : Heap) (br : BoardRef) :
    (copyBoard h br).1.length = h.length + 8 := by
  simp [copyBoard]

/-- Simulating a move on a board with fresh row ids leaves every heap
entry below `n` unchanged. -/
theorem make_move_h_preserve {n : Nat} (piece : Piece) (h : Heap)
    (tbr : BoardRef) (s e : Int × Int)
    (hids : ∀ id ∈ tbr.rowIds, n ≤ id) {j : Nat} (hj : j < n) :
    (make_move_h piece h tbr s e).1.get? j = h.get? j := by
  unfold make_move_h
  dsimp only
  split_ifs with h1 h2 h3 <;>
    simp only [writeCell_preserve _ tbr _ _ _ hids hj]

/-- Simulating a move does not change the number of allocated rows. -/
theorem make_move_h_length (piece : Piece) (h : Heap) (tbr : BoardRef)
    (s e : Int × Int) :
    (make_move_h piece h tbr s e).1.length = h.length := by
  unfold make_move_h
  dsimp only
  split_ifs with h1 h2 h3 <;>
    simp only [writeCell_length]

/-- One loop iteration leaves every heap entry below the incoming heap's
old length unchanged and never shrinks the heap. -/
theorem legalSimStep_preserve (piece : Piece) (br : BoardRef)
    (row col : Int) (acc : Heap × List (Int × Int)) (m : Int × Int)
    {j : Nat} (hj : j < acc.1.length) :
    (legalSimStep piece br row col acc m).1.get? j = acc.1.get? j ∧
    acc.1.length ≤ (legalSimStep piece br row col acc m).1.length := by
  have hids := copyBoard_ids acc.1 br
  have hcopy := copyBoard_heap_get? acc.1 br hj
  have hstep :
      (make_move_h piece (copyBoard acc.1 br).1 (copyBoard acc.1 br).2
        (row, col) m).1.get? j = (copyBoard acc.1 br).1.get? j :=
    make_move_h_preserve piece _ _ _ _ hids hj
  have hlen :
      (make_move_h piece (copyBoard acc.1 br).1 (copyBoard acc.1 br).2
        (row, col) m).1.length = acc.1.length + 8 := by
    rw [make_move_h_length, copyBoard_length]
  unfold legalSimStep
  dsimp only
  split_ifs with hc <;>
    exact ⟨hstep.trans hcopy, le_of_le_of_eq (by omega) hlen.symm⟩

/-- The whole loop leaves every heap entry below the starting heap's
length unchanged. -/
theorem foldl_sim_preserve (piece : Piece) (br : BoardRef)
    (row col : Int) {j : Nat} :
    ∀ (ms : List (Int × Int)) (acc : Heap × List (Int × Int)),
      j < acc.1.length →
      (ms.foldl (legalSimStep piece br row col) acc).1.get? j =
        acc.1.get? j ∧
      acc.1.length ≤
        (ms.foldl (legalSimStep piece br row col) acc).1.length := by
  intro ms
  induction ms with
  | nil => intro acc hj; exact ⟨rfl, le_refl _⟩
  | cons m ms ih =>
    intro acc hj
    rw [List.foldl_cons]
    have hstep := legalSimStep_preserve piece br row col acc m hj
    have hrec := ih (legalSimStep piece br row col acc m) (by omega)
    exact ⟨hrec.1.trans hstep.1, by omega⟩

/-- C9: `get_legal_moves` leaves the queried board entirely unchanged —
each of its row objects is untouched in the heap, hence every board cell
reads the same afterwards; its scalar attributes (side to move, en-passant
target, move history) are per-object values that the call never rebinds.
All mutation happens on the freshly allocated scratch copies. -/
theorem get_legal_moves_h_preserves_self (h : Heap) (br : BoardRef)
    (row col : Int) (hwf : ∀ id ∈ br.rowIds, id < h.length) :
    (∀ id ∈ br.rowIds,
      (get_legal_moves_h h br row col).1.get? id = h.get? id) ∧
    (∀ r c, readCell (get_legal_moves_h h br row col).1 br r c =
      readCell h br r c) := by
  have main : ∀ id ∈ br.rowIds,
      (get_legal_moves_h h br row col).1.get? id = h.get? id := by
    intro id hid
    unfold get_legal_moves_h
    cases hp : (projBoard h br).get_piece row col with
    | none => rfl
    | some piece =>
      exact (foldl_sim_preserve piece br row col _ (h, []) (hwf id hid)).1
  refine ⟨main, ?_⟩
  intro r c
  cases hr : br.rowIds.get? r.toNat with
  | none =>
    have e1 : readCell (get_legal_moves_h h br row col).1 br r c = none := by
      unfold readCell
      rw [hr]
    have e2 : readCell h br r c = none := by
      unfold readCell
      rw [hr]
    rw [e1, e2]
  | some id =>
    have e1 : readCell (get_legal_moves_h h br row col).1 br r c =
        (match (get_legal_moves_h h br row col).1.get? id with
         | some rowObj => rowObj c
         | none => none) := by
      unfold readCell
      rw [hr]
    have e2 : readCell h br r c =
        (match h.get? id with
         | some rowObj => rowObj c
         | none => none) := by
      unfold readCell
      rw [hr]
    rw [e1, e2, main id (List.get?_mem hr)]

/-- C9 witness: querying the king's legal moves leaves the queried board's
cell (0, 0) reading the same as before. -/
theorem get_legal_moves_h_preserves_self_witness :
    readCell (get_legal_moves_h heap0 bref0 0 0).1 bref0 0 0 =
      readCell heap0 bref0 0 0 :=
  (get_legal_moves_h_preserves_self heap0 bref0 0 0 (by decide)).2 0 0
